import Mathlib

/-!
Shallow embedding of the bfhl HTTP service (src/index.js): a fixed-window
per-IP rate limiter, numeric kernels (Fibonacci series, trial-division
primality, Euclidean gcd, array gcd/lcm), the request dispatcher for
POST /bfhl, and the best-effort sanitizer applied to AI answers.
JavaScript numbers are modelled as exact integers (Nat/Int); JS `%` and
`/` occur only where both operands are non-negative or the division is
exact, so the idealized semantics agrees with the source on every input
considered here.
-/

namespace Bfhl

/-- Entry of the in-memory rate-limiter map (`rateMap`): request count and
window start timestamp, per client IP. -/
structure RateEntry where
  count : Nat
  start : Nat
  deriving Repr, DecidableEq

/-- `RATE_LIMIT` from src/index.js line 23. -/
def RATE_LIMIT : Nat := 120

/-- `RATE_WINDOW_MS` from src/index.js line 24. -/
def RATE_WINDOW_MS : Nat := 60000

/-- The rate-limiter map, keyed by client IP. -/
abbrev RateMap := List (String × RateEntry)

/-- `rateMap.get(ip)`. -/
def rmGet (m : RateMap) (ip : String) : Option RateEntry :=
  (m.find? (fun p => p.1 == ip)).map (fun p => p.2)

/-- `rateMap.set(ip, e)`: replace the entry in place, or append a new one. -/
def rmSet : RateMap → String → RateEntry → RateMap
  | [], ip, e => [(ip, e)]
  | p :: rest, ip, e => if p.1 == ip then (ip, e) :: rest else p :: rmSet rest ip e

/-- Body of the middleware (lines 29-35): fetch the entry (defaulting to
`{count: 0, start: now}`), reset it if the window has elapsed, otherwise
increment the count. `now - entry.start > RATE_WINDOW_MS` is computed with
truncated subtraction, which selects the same branch as JS for every pair
of timestamps. -/
def rlUpdate (prev : Option RateEntry) (now : Nat) : RateEntry :=
  let entry := prev.getD ⟨0, now⟩
  if now - entry.start > RATE_WINDOW_MS then ⟨1, now⟩ else ⟨entry.count + 1, entry.start⟩

/-- Line 37: the request is admitted unless `entry.count > RATE_LIMIT`. -/
def rlAdmitted (e : RateEntry) : Bool := !(decide (e.count > RATE_LIMIT))

/-- One pass of the rate-limiter middleware for a request from `ip` at time
`now`: the updated map, and whether the request was admitted (`true`) or
rejected with HTTP 429 (`false`). -/
def rateLimiter (m : RateMap) (ip : String) (now : Nat) : RateMap × Bool :=
  let entry := rlUpdate (rmGet m ip) now
  (rmSet m ip entry, rlAdmitted entry)

/-- Run the middleware over a sequence of requests from a single client,
returning the admit/reject flag of each request in order. -/
def rlRunMap (m : RateMap) (ip : String) : List Nat → List Bool
  | [] => []
  | t :: ts =>
    let p := rateLimiter m ip t
    p.2 :: rlRunMap p.1 ip ts

/-- Loop of `fibSeries` (lines 56-59): push `res[l-1] + res[l-2]` until the
list has `n` elements. -/
def fibLoop (n : Nat) (res : List Nat) : List Nat :=
  if h : res.length < n then
    fibLoop n (res ++ [res.getD (res.length - 1) 0 + res.getD (res.length - 2) 0])
  else res
termination_by n - res.length
decreasing_by
  simp only [List.length_append, List.length_cons, List.length_nil]
  omega

/-- `fibSeries(n)` (lines 50-61): empty for `n <= 0`, `[0]` for `n = 1`,
otherwise seeded with `[0, 1]` and extended by the loop. -/
def fibSeries (n : Int) : List Nat :=
  if n ≤ 0 then []
  else if n = 1 then [0]
  else fibLoop n.toNat [0, 1]

/-- Trial-division loop of `isPrimeNum` (line 68): odd candidates
`i = 3, 5, ...` up to `r`. The fuel argument only bounds the recursion
depth (the loop runs `i` from `3` to at most `r`, so any fuel of at least
`r + 1 - i` reproduces the loop exactly). -/
def trialLoop (fuel x r i : Nat) : Bool :=
  match fuel with
  | 0 => true
  | fuel + 1 =>
    if i ≤ r then
      if x % i = 0 then false else trialLoop fuel x r (i + 2)
    else true

/-- `isPrimeNum(x)` (lines 63-70). `Math.floor(Math.sqrt(x))` is modelled by
`Nat.sqrt`. -/
def isPrimeNum (x : Int) : Bool :=
  if x ≤ 1 then false
  else if x ≤ 3 then true
  else if x % 2 = 0 then false
  else trialLoop (Nat.sqrt x.toNat + 1) x.toNat (Nat.sqrt x.toNat) 3

/-- Recursive Euclidean algorithm after taking absolute values
(lines 72-77): `if (!b) return a; return gcd(b, a % b)`. -/
def gcdRec (a b : Nat) : Nat :=
  if h : b = 0 then a else gcdRec b (a % b)
termination_by b
decreasing_by exact Nat.mod_lt _ (Nat.pos_of_ne_zero h)

/-- `gcd(a, b)` (lines 72-77): both arguments are replaced by their absolute
values before the recursion. -/
def gcd (a b : Int) : Int := Int.ofNat (gcdRec a.natAbs b.natAbs)

/-- `gcdArray(arr)` (lines 79-81): `arr.reduce((acc, v) => gcd(acc, v))`.
`reduce` with no initial value starts from the first element; on the empty
array it throws, which the dispatcher's non-empty check makes unreachable
(the `[]` case here is an arbitrary value standing for that throw). -/
def gcdArray : List Int → Int
  | [] => 0
  | x :: xs => xs.foldl (fun acc v => gcd acc v) x

/-- `lcm2(a, b)` (lines 83-86): `0` if either argument is `0`, otherwise
`Math.abs((a / gcd(a, b)) * b)`. The division is exact (`gcd(a,b)` divides
`a`), so integer division is faithful to the JS float division. -/
def lcm2 (a b : Int) : Int :=
  if a = 0 ∨ b = 0 then 0 else Int.ofNat (Int.natAbs (a / gcd a b * b))

/-- `lcmArray(arr)` (lines 88-90), analogous to `gcdArray`. -/
def lcmArray : List Int → Int
  | [] => 0
  | x :: xs => xs.foldl (fun acc v => lcm2 acc v) x

/-- JSON values as delivered by the body parser. JS numbers that are not
integers are collapsed into `jnonint`: the dispatcher only ever asks
`Number.isInteger` of them. -/
inductive JVal where
  | jnull
  | jbool (b : Bool)
  | jint (n : Int)
  | jnonint
  | jstr (s : String)
  | jarr (elems : List JVal)
  | jobj (fields : List (String × JVal))

/-- Outcome of a POST /bfhl request: a success envelope with `data`, an
error envelope with an HTTP status and message, or (for a valid AI request
with the AI client configured) the prompt sent to the external model. -/
inductive BfhlResult where
  | ok (data : JVal)
  | err (status : Nat) (msg : String)
  | aiQuery (prompt : String)

/-- `Object.keys(body)` together with the `!body || typeof body !== 'object'`
guard (line 148): objects expose their fields, arrays expose index keys;
every other body yields `none` (400 "Invalid JSON body"). -/
def jsKeys : JVal → Option (List (String × JVal))
  | .jobj fs => some fs
  | .jarr es => some (es.enum.map (fun p => (toString p.1, p.2)))
  | _ => none

/-- `allowedKeys` (line 150). -/
def allowedKeys : List String := ["fibonacci", "prime", "lcm", "hcf", "AI"]

/-- The `arr.map` integer check (e.g. lines 167-170): all elements must be
integers, otherwise the branch throws (caught as a 400). -/
def allInts : List JVal → Option (List Int)
  | [] => some []
  | .jint n :: rest => (allInts rest).map (fun ns => n :: ns)
  | _ => none

/-- Per-key branches of the POST /bfhl handler (lines 156-222), given the
value of the single top-level key. -/
def bfhlDispatch (cfgAI : Bool) (key : String) (v : JVal) : BfhlResult :=
  if key = "fibonacci" then
    match v with
    | .jint n =>
      if n ≤ 0 ∨ n > 1000 then .err 400 "fibonacci must be an integer in range 1..1000"
      else .ok (.jarr ((fibSeries n).map (fun m => .jint (Int.ofNat m))))
    | _ => .err 400 "fibonacci must be an integer in range 1..1000"
  else if key = "prime" then
    match v with
    | .jarr es =>
      if es.isEmpty then .err 400 "prime must be a non-empty array"
      else
        match allInts es with
        | none => .err 400 "prime array must contain integers"
        | some ns => .ok (.jarr ((ns.filter (fun x => isPrimeNum x)).map (fun n => .jint n)))
    | _ => .err 400 "prime must be a non-empty array"
  else if key = "hcf" then
    match v with
    | .jarr es =>
      if es.isEmpty then .err 400 "hcf must be a non-empty array"
      else
        match allInts es with
        | none => .err 400 "hcf array must contain integers"
        | some ns => .ok (.jint (gcdArray ns))
    | _ => .err 400 "hcf must be a non-empty array"
  else if key = "lcm" then
    match v with
    | .jarr es =>
      if es.isEmpty then .err 400 "lcm must be a non-empty array"
      else
        match allInts es with
        | none => .err 400 "lcm array must contain integers"
        | some ns => .ok (.jint (lcmArray ns))
    | _ => .err 400 "lcm must be a non-empty array"
  else if key = "AI" then
    match v with
    | .jstr q =>
      if q.trim = "" then .err 400 "AI must be a non-empty string"
      else if cfgAI then .aiQuery ("Answer Question: " ++ q)
      else .err 503 "AI service not configured"
    | _ => .err 400 "AI must be a non-empty string"
  else .err 400 "Unhandled key"

/-- The POST /bfhl handler (lines 144-227). `cfgEmail` models whether
`OFFICIAL_EMAIL` is set, `cfgAI` whether the AI client is configured. -/
def bfhl (cfgEmail cfgAI : Bool) (body : JVal) : BfhlResult :=
  if !cfgEmail then .err 500 "Server not configured: OFFICIAL_EMAIL missing"
  else
    match jsKeys body with
    | none => .err 400 "Invalid JSON body"
    | some keys =>
      match keys with
      | [(k, v)] =>
        if allowedKeys.contains k then bfhlDispatch cfgAI k v
        else .err 400 "Unsupported key provided"
      | _ => .err 400 "Request must contain exactly one top-level key"

/-- Backtick character, written via its code point. -/
def btick : Char := Char.ofNat 96

/-- Opening curly brace character. -/
def lbrace : Char := Char.ofNat 123

/-- Closing curly brace character. -/
def rbrace : Char := Char.ofNat 125

/-- Index of the first occurrence of `pat` as a contiguous sublist of `cs`. -/
def findSub (pat : List Char) : List Char → Option Nat
  | [] => if pat.isEmpty then some 0 else none
  | c :: rest =>
    if pat.isPrefixOf (c :: rest) then some 0
    else (findSub pat rest).map (fun k => k + 1)

/-- Core of the global replace for the delimiter-pair regexes of
`cleanAIContent`: the non-greedy `d...d` span is located (nearest closing
delimiter), the inner text is kept (`$1`, for the bold/italic/underscore
markers) or dropped (code fences), and scanning resumes after the match,
exactly as a JS global `String.replace` does. If an opening delimiter has
no closing one, no match exists there or later, and the rest is returned
unchanged. Every step consumes at least one character, so fuel
`cs.length + 1` (supplied by `delimSweep`) reproduces the scan exactly. -/
def delimSweepF (fuel : Nat) (keep : Bool) (d0 : Char) (ds : List Char) (cs : List Char) :
    List Char :=
  match fuel with
  | 0 => cs
  | fuel + 1 =>
    match findSub (d0 :: ds) cs with
    | none => cs
    | some i =>
      let dl := ds.length + 1
      let rest := cs.drop (i + dl)
      match findSub (d0 :: ds) rest with
      | none => cs
      | some j =>
        cs.take i ++ (if keep then rest.take j else []) ++
          delimSweepF fuel keep d0 ds (rest.drop (j + dl))

/-- Delimiter-pair global replace with ample fuel. -/
def delimSweep (keep : Bool) (d0 : Char) (ds : List Char) (cs : List Char) : List Char :=
  delimSweepF (cs.length + 1) keep d0 ds cs

/-- Step 1 of `cleanAIContent` (line 103): the code-fence regex replace,
dropping each fenced block entirely. -/
def stripFences (cs : List Char) : List Char := delimSweep false btick [btick, btick] cs

/-- The inline-code regex (line 126): backtick, a non-empty run of
non-backticks, backtick, replaced by the inner run; adjacent backticks do
not match, and scanning advances one character as the JS engine does. -/
def inlineCodeF (fuel : Nat) (cs : List Char) : List Char :=
  match fuel, cs with
  | 0, cs => cs
  | _ + 1, [] => []
  | fuel + 1, c :: rest =>
    if c = btick then
      match findSub [btick] rest with
      | none => c :: rest
      | some 0 => c :: inlineCodeF fuel rest
      | some (j + 1) => rest.take (j + 1) ++ inlineCodeF fuel (rest.drop (j + 2))
    else c :: inlineCodeF fuel rest

/-- Inline-code replace with ample fuel. -/
def inlineCode (cs : List Char) : List Char := inlineCodeF (cs.length + 1) cs

/-- Global literal substitution (for `&quot;`, the `\\n` unescape and the
CRLF normalization): replace every occurrence of `p0 :: ps` by `repl`,
left to right, never rescanning the replacement. -/
def replaceSubF (fuel : Nat) (p0 : Char) (ps : List Char) (repl : List Char) (cs : List Char) :
    List Char :=
  match fuel with
  | 0 => cs
  | fuel + 1 =>
    match findSub (p0 :: ps) cs with
    | none => cs
    | some i => cs.take i ++ repl ++ replaceSubF fuel p0 ps repl (cs.drop (i + (ps.length + 1)))

/-- Literal substitution with ample fuel. -/
def replaceSub (p0 : Char) (ps : List Char) (repl : List Char) (cs : List Char) : List Char :=
  replaceSubF (cs.length + 1) p0 ps repl cs

/-- Length of the leading run of newlines. -/
def nlRun (cs : List Char) : Nat := (cs.takeWhile (fun d => d == '\n')).length

/-- The blank-line collapse (line 134): each maximal run of three or more
newlines becomes exactly two. -/
def collapseNLF (fuel : Nat) (cs : List Char) : List Char :=
  match fuel, cs with
  | 0, cs => cs
  | _ + 1, [] => []
  | fuel + 1, c :: rest =>
    if c = '\n' then
      (if nlRun (c :: rest) ≥ 3 then ['\n', '\n'] else (c :: rest).take (nlRun (c :: rest))) ++
        collapseNLF fuel ((c :: rest).drop (nlRun (c :: rest)))
    else c :: collapseNLF fuel rest

/-- Blank-line collapse with ample fuel. -/
def collapseNL (cs : List Char) : List Char := collapseNLF (cs.length + 1) cs

/-- Whitespace for JS `String.trim` (the code points relevant here). -/
def jsWS (c : Char) : Bool :=
  c.toNat = 9 || c.toNat = 10 || c.toNat = 11 || c.toNat = 12 || c.toNat = 13 ||
    c.toNat = 32 || c.toNat = 160 || c.toNat = 65279

/-- JS `String.trim`. -/
def jsTrim (cs : List Char) : List Char :=
  ((cs.dropWhile jsWS).reverse.dropWhile jsWS).reverse

/-- Character class `[A-Z0-9._%+-]` with the `i` flag. -/
def isLocalChar (c : Char) : Bool :=
  c.isAlpha || c.isDigit || c == '.' || c == '_' || c == '%' || c == '+' || c == '-'

/-- Character class `[A-Z0-9.-]` with the `i` flag. -/
def isDomainChar (c : Char) : Bool :=
  c.isAlpha || c.isDigit || c == '.' || c == '-'

/-- JS `\w`. -/
def isWordChar (c : Char) : Bool := c.isAlpha || c.isDigit || c == '_'

/-- Positions of `.` in the maximal domain run that leave a non-empty
`[A-Z0-9.-]+` before them, in the order the backtracking engine tries them
(longest domain part first). -/
def dotCandidates (dom : List Char) : List Nat :=
  ((List.range dom.length).filter (fun k => k != 0 && dom.getD k ' ' == '.')).reverse

/-- Try to finish the email match at dot position `k` of the domain run:
the `[A-Z]{2,}` TLD is the maximal letter run after the dot (a shorter run
would be followed by a letter, where `\b` cannot hold), and the word
boundary after it is checked against the following character. Returns the
length of `[A-Z0-9.-]+\.[A-Z]{2,}` on success. -/
def tldCheck (dom : List Char) (after : List Char) (k : Nat) : Option Nat :=
  let tld := (dom.drop (k + 1)).takeWhile Char.isAlpha
  let nextc : Option Char :=
    match (dom.drop (k + 1)).drop tld.length with
    | c :: _ => some c
    | [] => after.head?
  if decide (2 ≤ tld.length) && (match nextc with | some c => !isWordChar c | none => true) then
    some (k + 1 + tld.length)
  else none

/-- Attempt the email regex `\b[A-Z0-9._%+-]+@[A-Z0-9.-]+\.[A-Z]{2,}\b`
(line 120) at the current position. `prevW` is the wordness of the
preceding character (`false` at the start of the string); the leading `\b`
holds iff it differs from the wordness of the first matched character.
The `[A-Z0-9._%+-]+` run is forced to end exactly at the `@` (a shorter
run would be followed by a local character, not `@`). Returns the length
of the full match. -/
def emailMatchAt (prevW : Bool) (cs : List Char) : Option Nat :=
  let loc := cs.takeWhile isLocalChar
  match loc with
  | [] => none
  | _ :: _ =>
    if prevW == isWordChar (cs.headD ' ') then none
    else
      match cs.drop loc.length with
      | c :: rest2 =>
        if c == '@' then
          let dom := rest2.takeWhile isDomainChar
          ((dotCandidates dom).findSome? (tldCheck dom (rest2.drop dom.length))).map
            (fun tlen => loc.length + 1 + tlen)
        else none
      | [] => none

/-- Global scan of the email redaction (line 120): at each position try the
regex; on a match, emit nothing and resume after it (the last matched
character is a letter, hence a word character); otherwise emit the
character and advance. -/
def removeEmailsGo (fuel : Nat) (prevW : Bool) (cs : List Char) : List Char :=
  match fuel, cs with
  | 0, cs => cs
  | _ + 1, [] => []
  | fuel + 1, c :: rest =>
    match emailMatchAt prevW (c :: rest) with
    | some len => removeEmailsGo fuel true (rest.drop (len - 1))
    | none => c :: removeEmailsGo fuel (isWordChar c) rest

/-- Step 3 of `cleanAIContent`: redact email-shaped substrings. -/
def removeEmails (cs : List Char) : List Char := removeEmailsGo (cs.length + 1) false cs

/-- Values produced by `JSON.parse`. Numbers are kept exactly as
`m * 10 ^ e` (mantissa and decimal exponent). -/
inductive JsonVal where
  | jnull
  | jbool (b : Bool)
  | jnum (m : Int) (e : Int)
  | jstr (s : List Char)
  | jarr (l : List JsonVal)
  | jobj (l : List (String × JsonVal))

/-- JSON insignificant whitespace. -/
def jsonWS (c : Char) : Bool := c == ' ' || c == '\t' || c == '\n' || c == '\r'

/-- Drop leading JSON whitespace. -/
def skipWs (cs : List Char) : List Char := cs.dropWhile jsonWS

/-- Value of one hexadecimal digit. -/
def hexVal (c : Char) : Option Nat :=
  let n := c.toNat
  if 48 ≤ n ∧ n ≤ 57 then some (n - 48)
  else if 97 ≤ n ∧ n ≤ 102 then some (n - 87)
  else if 65 ≤ n ∧ n ≤ 70 then some (n - 55)
  else none

/-- Parse the body of a JSON string after the opening quote: returns the
decoded content and the text after the closing quote. Unescaped control
characters and unknown escapes are errors, as in `JSON.parse`. -/
def parseStrBody (fuel : Nat) (cs : List Char) : Option (List Char × List Char) :=
  match fuel with
  | 0 => none
  | fuel + 1 =>
    match cs with
    | [] => none
    | c :: rest =>
      if c == '"' then some ([], rest)
      else if c == '\\' then
        match rest with
        | [] => none
        | e :: rest2 =>
          let dec : Option (Char × List Char) :=
            if e == '"' then some ('"', rest2)
            else if e == '\\' then some ('\\', rest2)
            else if e == '/' then some ('/', rest2)
            else if e == 'b' then some (Char.ofNat 8, rest2)
            else if e == 'f' then some (Char.ofNat 12, rest2)
            else if e == 'n' then some ('\n', rest2)
            else if e == 'r' then some ('\r', rest2)
            else if e == 't' then some ('\t', rest2)
            else if e == 'u' then
              match rest2 with
              | h1 :: h2 :: h3 :: h4 :: rest3 =>
                match hexVal h1, hexVal h2, hexVal h3, hexVal h4 with
                | some a, some b, some c2, some d =>
                  some (Char.ofNat (((a * 16 + b) * 16 + c2) * 16 + d), rest3)
                | _, _, _, _ => none
              | _ => none
            else none
          match dec with
          | none => none
          | some (ch, rem) =>
            match parseStrBody fuel rem with
            | none => none
            | some (content, rem2) => some (ch :: content, rem2)
      else if c.toNat < 32 then none
      else
        match parseStrBody fuel rest with
        | none => none
        | some (content, rem2) => some (c :: content, rem2)

/-- Numeric value of a digit run. -/
def digitsVal (ds : List Char) : Nat := ds.foldl (fun a c => a * 10 + (c.toNat - 48)) 0

/-- Parse a JSON number (`-?(0|[1-9][0-9]*)(\.[0-9]+)?([eE][+-]?[0-9]+)?`),
returned as mantissa and decimal exponent. -/
def parseNum (cs : List Char) : Option (JsonVal × List Char) :=
  let sp : Bool × List Char :=
    match cs with
    | c :: r => if c == '-' then (true, r) else (false, cs)
    | [] => (false, cs)
  let neg := sp.1
  let cs1 := sp.2
  let ip := cs1.takeWhile Char.isDigit
  match hip : ip with
  | [] => none
  | d0 :: drest =>
    if d0 == '0' ∧ drest ≠ [] then none
    else
      let cs2 := cs1.drop ip.length
      let fracOpt : Option (List Char × List Char) :=
        match cs2 with
        | c :: r =>
          if c == '.' then
            let fd := r.takeWhile Char.isDigit
            if fd.isEmpty then none else some (fd, r.drop fd.length)
          else some ([], cs2)
        | [] => some ([], cs2)
      match fracOpt with
      | none => none
      | some (fd, cs3) =>
        let expOpt : Option (Int × List Char) :=
          match cs3 with
          | c :: r =>
            if c == 'e' || c == 'E' then
              let se : Int × List Char :=
                match r with
                | c2 :: r3 => if c2 == '+' then (1, r3) else if c2 == '-' then (-1, r3) else (1, r)
                | [] => (1, r)
              let ed := se.2.takeWhile Char.isDigit
              if ed.isEmpty then none
              else some (se.1 * Int.ofNat (digitsVal ed), se.2.drop ed.length)
            else some (0, cs3)
          | [] => some (0, cs3)
        match expOpt with
        | none => none
        | some (ex, cs4) =>
          let mNat := digitsVal (ip ++ fd)
          let m : Int := if neg then -(Int.ofNat mNat) else Int.ofNat mNat
          some (.jnum m (ex - Int.ofNat fd.length), cs4)

/-- Insert a member into an object under construction: a repeated key
overwrites the earlier value in place, as JS property assignment does. -/
def insertKey : List (String × JsonVal) → String → JsonVal → List (String × JsonVal)
  | [], k, v => [(k, v)]
  | p :: rest, k, v => if p.1 == k then (k, v) :: rest else p :: insertKey rest k v

mutual

/-- Parse one JSON value (after optional whitespace). -/
def parseValue (fuel : Nat) (cs : List Char) : Option (JsonVal × List Char) :=
  match fuel with
  | 0 => none
  | f + 1 =>
    match skipWs cs with
    | [] => none
    | c :: rest =>
      if c == lbrace then parseObjBody f rest
      else if c == '[' then parseArrBody f rest
      else if c == '"' then
        match parseStrBody (rest.length + 1) rest with
        | some (content, rem) => some (.jstr content, rem)
        | none => none
      else if c == 't' then
        if ['r', 'u', 'e'].isPrefixOf rest then some (.jbool true, rest.drop 3) else none
      else if c == 'f' then
        if ['a', 'l', 's', 'e'].isPrefixOf rest then some (.jbool false, rest.drop 4) else none
      else if c == 'n' then
        if ['u', 'l', 'l'].isPrefixOf rest then some (.jnull, rest.drop 3) else none
      else parseNum (c :: rest)

/-- Parse an object body after the opening brace. -/
def parseObjBody (fuel : Nat) (cs : List Char) : Option (JsonVal × List Char) :=
  match fuel with
  | 0 => none
  | f + 1 =>
    match skipWs cs with
    | c :: rest =>
      if c == rbrace then some (.jobj [], rest)
      else parseMembers f [] (c :: rest)
    | [] => none

/-- Parse the members of a non-empty object. -/
def parseMembers (fuel : Nat) (acc : List (String × JsonVal)) (cs : List Char) :
    Option (JsonVal × List Char) :=
  match fuel with
  | 0 => none
  | f + 1 =>
    match skipWs cs with
    | c :: rest =>
      if c == '"' then
        match parseStrBody (rest.length + 1) rest with
        | some (key, rem) =>
          match skipWs rem with
          | c2 :: rem2 =>
            if c2 == ':' then
              match parseValue f rem2 with
              | some (v, rem3) =>
                match skipWs rem3 with
                | c3 :: rem4 =>
                  if c3 == ',' then parseMembers f (insertKey acc (String.mk key) v) rem4
                  else if c3 == rbrace then some (.jobj (insertKey acc (String.mk key) v), rem4)
                  else none
                | [] => none
              | none => none
            else none
          | [] => none
        | none => none
      else none
    | [] => none

/-- Parse an array body after the opening bracket. -/
def parseArrBody (fuel : Nat) (cs : List Char) : Option (JsonVal × List Char) :=
  match fuel with
  | 0 => none
  | f + 1 =>
    match skipWs cs with
    | c :: rest =>
      if c == ']' then some (.jarr [], rest)
      else parseItems f [] (c :: rest)
    | [] => none

/-- Parse the items of a non-empty array. -/
def parseItems (fuel : Nat) (acc : List JsonVal) (cs : List Char) :
    Option (JsonVal × List Char) :=
  match fuel with
  | 0 => none
  | f + 1 =>
    match parseValue f cs with
    | some (v, rem) =>
      match skipWs rem with
      | c :: rem2 =>
        if c == ',' then parseItems f (acc ++ [v]) rem2
        else if c == ']' then some (.jarr (acc ++ [v]), rem2)
        else none
      | [] => none
    | none => none

end

/-- `JSON.parse`: a single value, with nothing but whitespace after it.
The fuel is an upper bound on the recursion depth; it is ample for any
input of this length. -/
def jsonParse (cs : List Char) : Option JsonVal :=
  match parseValue (3 * cs.length + 9) cs with
  | some (v, rem) => if (skipWs rem).isEmpty then some v else none
  | none => none

/-- Lower-case hexadecimal digit. -/
def hexDigitChar (n : Nat) : Char :=
  if n < 10 then Char.ofNat (48 + n) else Char.ofNat (87 + (n - 10))

/-- `JSON.stringify` escaping of one string character. -/
def escJsonChar (c : Char) : List Char :=
  if c == '"' then ['\\', '"']
  else if c == '\\' then ['\\', '\\']
  else if c == '\n' then ['\\', 'n']
  else if c == '\r' then ['\\', 'r']
  else if c == '\t' then ['\\', 't']
  else if c.toNat = 8 then ['\\', 'b']
  else if c.toNat = 12 then ['\\', 'f']
  else if c.toNat < 32 then ['\\', 'u', '0', '0', hexDigitChar (c.toNat / 16), hexDigitChar (c.toNat % 16)]
  else [c]

/-- Quote and escape a string for `JSON.stringify`. -/
def quoteStr (s : List Char) : List Char := '"' :: (s.flatMap escJsonChar ++ ['"'])

/-- Drop decimal digits shared by the fractional part and the exponent, so
`1.50` prints as `1.5` and `2.0` as `2`, as JS number formatting does. -/
def stripZeros (fuel n p : Nat) : Nat × Nat :=
  match fuel with
  | 0 => (n, p)
  | fuel + 1 =>
    if p = 0 ∨ n % 10 ≠ 0 then (n, p) else stripZeros fuel (n / 10) (p - 1)

/-- Decimal rendering of the number `m * 10 ^ e` (the common cases of JS
number-to-string; very large or very small magnitudes, which JS prints in
exponential form, do not occur in this development). -/
def numChars (m e : Int) : List Char :=
  if 0 ≤ e then (toString (m * (10 : Int) ^ e.toNat)).data
  else
    let sgn : List Char := if m < 0 then ['-'] else []
    let s := stripZeros (e.natAbs + 1) m.natAbs e.natAbs
    if s.2 = 0 then sgn ++ (toString s.1).data
    else
      sgn ++ (toString (s.1 / 10 ^ s.2)).data ++
        '.' :: ((toString (10 ^ s.2 + s.1 % 10 ^ s.2)).data.drop 1)

/-- Indentation for `JSON.stringify(v, null, 2)`. -/
def spacesN (n : Nat) : List Char := List.replicate n ' '

/-- Join pieces with a separator. -/
def joinSep (sep : List Char) : List (List Char) → List Char
  | [] => []
  | [x] => x
  | x :: y :: rest => x ++ sep ++ joinSep sep (y :: rest)

/-- `JSON.stringify(v, null, 2)`: two-space-indented pretty printing. -/
def stringifyVal (fuel : Nat) (ind : Nat) (v : JsonVal) : List Char :=
  match fuel with
  | 0 => []
  | f + 1 =>
    match v with
    | .jnull => ['n', 'u', 'l', 'l']
    | .jbool true => ['t', 'r', 'u', 'e']
    | .jbool false => ['f', 'a', 'l', 's', 'e']
    | .jnum m e => numChars m e
    | .jstr s => quoteStr s
    | .jarr [] => ['[', ']']
    | .jarr (x :: xs) =>
      '[' :: '\n' ::
        (joinSep [',', '\n'] ((x :: xs).map (fun it => spacesN (ind + 2) ++ stringifyVal f (ind + 2) it)) ++
          '\n' :: (spacesN ind ++ [']']))
    | .jobj [] => [lbrace, rbrace]
    | .jobj (p :: ps) =>
      lbrace :: '\n' ::
        (joinSep [',', '\n']
            ((p :: ps).map (fun kv =>
              spacesN (ind + 2) ++ quoteStr kv.1.data ++ ':' :: ' ' :: stringifyVal f (ind + 2) kv.2)) ++
          '\n' :: (spacesN ind ++ [rbrace]))

/-- `JSON.stringify(v, null, 2)` with ample fuel. -/
def jsonStringify (v : JsonVal) : List Char := stringifyVal 1000000 0 v

/-- Property lookup on a parsed object. -/
def lookupField (fs : List (String × JsonVal)) (k : String) : Option JsonVal :=
  (fs.find? (fun p => p.1 == k)).map (fun p => p.2)

/-- Lines 110-112: a parsed string replaces the text; an object with a
string `data` field contributes that field; anything else (including
`null`, numbers, booleans, arrays and objects without a string `data`) is
pretty-printed. -/
def extractChoice (v : JsonVal) : List Char :=
  match v with
  | .jstr s => s
  | .jobj fs =>
    match lookupField fs "data" with
    | some (.jstr d) => d
    | _ => jsonStringify v
  | _ => jsonStringify v

/-- The span matched by the greedy regex on line 106: from the first
opening brace to the last closing brace, when the latter comes after the
former; otherwise no match. -/
def braceSpan (cs : List Char) : Option (List Char) :=
  match cs.findIdx? (fun c => c == lbrace) with
  | none => none
  | some i =>
    match cs.reverse.findIdx? (fun c => c == rbrace) with
    | none => none
    | some jr =>
      let j := cs.length - 1 - jr
      if i < j then some ((cs.drop i).take (j - i + 1)) else none

/-- Step 2 of `cleanAIContent` (lines 105-117): locate the brace span,
parse it as JSON; on success take `extractChoice`, on failure keep the
matched span verbatim; with no span the text is unchanged. -/
def cleanStage2 (cs : List Char) : List Char :=
  match braceSpan cs with
  | none => cs
  | some span =>
    match jsonParse span with
    | some v => extractChoice v
    | none => span

/-- Steps 3-6 of `cleanAIContent` (lines 119-134), in source order: email
redaction, bold, underscore emphasis, italics, inline code, `&quot;`,
`\\n` unescape, stray-backslash removal, CRLF normalization, blank-line
collapse, trim. -/
def postJson (cs : List Char) : List Char :=
  let s3 := removeEmails cs
  let s4 := delimSweep true '*' ['*'] s3
  let s5 := delimSweep true '_' ['_'] s4
  let s6 := delimSweep true '*' [] s5
  let s7 := inlineCode s6
  let s8 := replaceSub '&' ['q', 'u', 'o', 't', ';'] ['"'] s7
  let s9 := replaceSub '\\' ['n'] ['\n'] s8
  let s10 := s9.filter (fun c => !(c == '\\'))
  let s11 := replaceSub '\r' ['\n'] ['\n'] s10
  let s12 := collapseNL s11
  jsTrim s12

/-- `cleanAIContent(raw)` (lines 98-137). The `!raw || typeof raw`
guard returns the empty string for the empty (falsy) input. -/
def cleanAIContent (raw : String) : String :=
  if raw = "" then ""
  else String.mk (postJson (cleanStage2 (stripFences raw.data)))

/-! Rate limiter lemmas and claims. -/

theorem rmGet_rmSet_self (m : RateMap) (ip : String) (e : RateEntry) :
    rmGet (rmSet m ip e) ip = some e := by
  induction m with
  | nil => simp [rmSet, rmGet]
  | cons p rest ih =>
    by_cases h : p.1 == ip
    · simp [rmSet, h, rmGet]
    · simp only [rmSet, h, if_false, Bool.false_eq_true]
      simp only [rmGet, List.find?_cons, h] at ih ⊢
      exact ih

theorem rlRunMap_steady (t0 : Nat) :
    ∀ (ts : List Nat) (k : Nat) (m : RateMap) (ip : String),
      rmGet m ip = some ⟨k, t0⟩ →
      (∀ t ∈ ts, t ≤ t0 + RATE_WINDOW_MS) →
      rlRunMap m ip ts = (List.range ts.length).map (fun i => decide (k + 1 + i ≤ RATE_LIMIT)) := by
  intro ts
  induction ts with
  | nil => intro k m ip _ _; simp [rlRunMap]
  | cons t ts ih =>
    intro k m ip hget hts
    have hwin : ¬ (t - t0 > RATE_WINDOW_MS) := by
      have := hts t (List.mem_cons_self t ts)
      omega
    have hstep : rateLimiter m ip t = (rmSet m ip ⟨k + 1, t0⟩, decide (k + 1 ≤ RATE_LIMIT)) := by
      simp only [rateLimiter, rlUpdate, hget, Option.getD_some, hwin, if_false, rlAdmitted]
      have : (!decide (k + 1 > RATE_LIMIT)) = decide (k + 1 ≤ RATE_LIMIT) := by
        rcases Nat.lt_or_ge RATE_LIMIT (k + 1) with h | h <;> simp [h] <;> omega
      simp [this]
    have hrest : rlRunMap (rmSet m ip ⟨k + 1, t0⟩) ip ts =
        (List.range ts.length).map (fun i => decide (k + 1 + 1 + i ≤ RATE_LIMIT)) :=
      ih (k + 1) _ ip (rmGet_rmSet_self m ip _) (fun t' ht' => hts t' (List.mem_cons_of_mem _ ht'))
    simp only [rlRunMap, hstep, hrest, List.length_cons, List.range_succ_eq_map,
      List.map_cons, List.map_map]
    rw [List.cons_eq_cons]
    constructor
    · simp
    · apply List.map_congr_left
      intro i _
      simp only [Function.comp_apply]
      congr 1
      exact propext (by omega)

/-- C1: for every client, starting with no entry, each of the first 120
requests arriving within 60000 ms of the window start (the time of the
first request) is admitted and the 121st and later such requests are
rejected with 429 (the i-th flag is `decide (i + 1 ≤ 120)`); and a request
arriving strictly more than 60000 ms after the stored window start resets
the entry to count 1 with the new window start, and is admitted. -/
theorem claim_C1 :
    (∀ (m : RateMap) (ip : String) (t0 : Nat) (ts : List Nat),
        rmGet m ip = none →
        (∀ t ∈ ts, t ≤ t0 + RATE_WINDOW_MS) →
        rlRunMap m ip (t0 :: ts) =
          (List.range (ts.length + 1)).map (fun i => decide (i + 1 ≤ RATE_LIMIT)))
    ∧ (∀ (m : RateMap) (ip : String) (e : RateEntry) (now : Nat),
        rmGet m ip = some e →
        e.start + RATE_WINDOW_MS < now →
        rateLimiter m ip now = (rmSet m ip ⟨1, now⟩, true)) := by
  constructor
  · intro m ip t0 ts hget hts
    have hstep : rateLimiter m ip t0 = (rmSet m ip ⟨1, t0⟩, true) := by
      simp [rateLimiter, rlUpdate, hget, rlAdmitted, RATE_LIMIT]
    have hrest : rlRunMap (rmSet m ip ⟨1, t0⟩) ip ts =
        (List.range ts.length).map (fun i => decide (1 + 1 + i ≤ RATE_LIMIT)) :=
      rlRunMap_steady t0 ts 1 _ ip (rmGet_rmSet_self m ip _) hts
    simp only [rlRunMap, hstep, hrest, List.range_succ_eq_map, List.map_cons, List.map_map]
    rw [List.cons_eq_cons]
    constructor
    · decide
    · apply List.map_congr_left
      intro i _
      simp only [Function.comp_apply]
      congr 1
      exact propext (by omega)
  · intro m ip e now hget hlate
    have hwin : now - e.start > RATE_WINDOW_MS := by omega
    simp [rateLimiter, rlUpdate, hget, hwin, rlAdmitted, RATE_LIMIT]

theorem claim_C1_witness :
    rlRunMap [] "client" (0 :: List.replicate 125 60000) =
      (List.range 126).map (fun i => decide (i + 1 ≤ RATE_LIMIT)) := by
  have h := claim_C1.1 [] "client" 0 (List.replicate 125 60000) rfl
    (by
      intro t ht
      have := List.eq_of_mem_replicate ht
      simp [this, RATE_WINDOW_MS])
  simpa using h

/-- C9: a rejected request still increments the stored counter, so once the
count exceeds 120 every further request arriving within 60000 ms of the
stored window start is rejected as well (never re-admitted inside the
window); only a request arriving strictly later than the window is
admitted again. -/
theorem claim_C9 :
    (∀ (m : RateMap) (ip : String) (e : RateEntry) (now : Nat),
        rmGet m ip = some e → RATE_LIMIT < e.count → now ≤ e.start + RATE_WINDOW_MS →
        rateLimiter m ip now = (rmSet m ip ⟨e.count + 1, e.start⟩, false))
    ∧ (∀ (m : RateMap) (ip : String) (e : RateEntry) (ts : List Nat),
        rmGet m ip = some e → RATE_LIMIT < e.count →
        (∀ t ∈ ts, t ≤ e.start + RATE_WINDOW_MS) →
        rlRunMap m ip ts = List.replicate ts.length false)
    ∧ (∀ (m : RateMap) (ip : String) (e : RateEntry) (now : Nat),
        rmGet m ip = some e → e.start + RATE_WINDOW_MS < now →
        (rateLimiter m ip now).2 = true) := by
  refine ⟨?_, ?_, ?_⟩
  · intro m ip e now hget hcount hin
    have hwin : ¬ (now - e.start > RATE_WINDOW_MS) := by omega
    have hrej : (RATE_LIMIT < e.count + 1) := by omega
    simp [rateLimiter, rlUpdate, hget, hwin, rlAdmitted, hrej]
  · intro m ip e ts
    induction ts generalizing m e with
    | nil => intro _ _ _; simp [rlRunMap]
    | cons t ts ih =>
      intro hget hcount hts
      have hwin : ¬ (t - e.start > RATE_WINDOW_MS) := by
        have := hts t (List.mem_cons_self t ts)
        omega
      have hrej : (RATE_LIMIT < e.count + 1) := by omega
      have hstep : rateLimiter m ip t = (rmSet m ip ⟨e.count + 1, e.start⟩, false) := by
        simp [rateLimiter, rlUpdate, hget, hwin, rlAdmitted, hrej]
      have hrest := ih (rmSet m ip ⟨e.count + 1, e.start⟩) ⟨e.count + 1, e.start⟩
        (rmGet_rmSet_self m ip _) (by show RATE_LIMIT < e.count + 1; omega)
        (fun t' ht' => hts t' (List.mem_cons_of_mem _ ht'))
      simp only [rlRunMap, hstep, List.length_cons, List.replicate_succ, hrest]
  · intro m ip e now hget hlate
    have hwin : now - e.start > RATE_WINDOW_MS := by omega
    simp [rateLimiter, rlUpdate, hget, hwin, rlAdmitted, RATE_LIMIT]

theorem claim_C9_witness :
    rateLimiter [("c", ⟨121, 0⟩)] "c" 1000 = (rmSet [("c", ⟨121, 0⟩)] "c" ⟨122, 0⟩, false) :=
  claim_C9.1 [("c", ⟨121, 0⟩)] "c" ⟨121, 0⟩ 1000 rfl (by decide) (by decide)

/-! Euclidean gcd: claim C8. -/

/-- C8: the recursive Euclidean `gcd` satisfies `gcd(a, 0) = |a|`, and on
`b ≠ 0` it calls itself on `(|b|, |a| mod |b|)`, whose second argument has
strictly smaller absolute value — the measure justifying termination. -/
theorem claim_C8 :
    (∀ a : Int, Bfhl.gcd a 0 = Int.ofNat a.natAbs)
    ∧ (∀ a b : Int, b ≠ 0 →
        Bfhl.gcd a b = Bfhl.gcd (Int.ofNat b.natAbs) (Int.ofNat (a.natAbs % b.natAbs))
        ∧ (Int.ofNat (a.natAbs % b.natAbs)).natAbs < b.natAbs) := by
  constructor
  · intro a
    rw [Bfhl.gcd, gcdRec]
    simp
  · intro a b hb
    have hbn : b.natAbs ≠ 0 := Int.natAbs_ne_zero.mpr hb
    constructor
    · show Int.ofNat (gcdRec a.natAbs b.natAbs) =
        Bfhl.gcd (Int.ofNat b.natAbs) (Int.ofNat (a.natAbs % b.natAbs))
      rw [gcdRec, dif_neg hbn]
      rfl
    · show a.natAbs % b.natAbs < b.natAbs
      exact Nat.mod_lt _ (Nat.pos_of_ne_zero hbn)

theorem claim_C8_witness :
    Bfhl.gcd 48 18 = Bfhl.gcd (Int.ofNat (18 : Int).natAbs)
        (Int.ofNat ((48 : Int).natAbs % (18 : Int).natAbs))
      ∧ (Int.ofNat ((48 : Int).natAbs % (18 : Int).natAbs)).natAbs < (18 : Int).natAbs :=
  claim_C8.2 48 18 (by decide)

/-! Single-element reductions: claim C10. -/

/-- C10: `reduce` over a one-element array returns the element itself, so
`gcdArray([a]) = a` and `lcmArray([a]) = a` with no absolute-value
normalization; in particular an `hcf` request for `[-4]` answers `-4`. -/
theorem claim_C10 :
    ∀ (a : Int) (cfgAI : Bool),
      gcdArray [a] = a ∧ lcmArray [a] = a ∧
      bfhl true cfgAI (.jobj [("hcf", .jarr [.jint (-4)])]) = .ok (.jint (-4)) := by
  intro a cfgAI
  refine ⟨rfl, rfl, ?_⟩
  rfl

theorem claim_C10_witness :
    gcdArray [-7] = -7 ∧ lcmArray [-7] = -7 ∧
      bfhl true true (.jobj [("hcf", .jarr [.jint (-4)])]) = .ok (.jint (-4)) :=
  claim_C10 (-7) true

/-! Fibonacci series: claim C3. -/

theorem fib_map_getD (k i : Nat) (h : i < k) :
    ((List.range k).map Nat.fib).getD i 0 = Nat.fib i := by
  rw [List.getD_eq_getElem?_getD]
  simp [List.getElem?_map, List.getElem?_range h]

theorem fibLoop_map :
    ∀ (d n k : Nat), n - k ≤ d → 2 ≤ k → k ≤ n →
      fibLoop n ((List.range k).map Nat.fib) = (List.range n).map Nat.fib := by
  intro d
  induction d with
  | zero =>
    intro n k hd h2 hk
    have hnk : n = k := by omega
    subst hnk
    rw [fibLoop]
    simp
  | succ d ih =>
    intro n k hd h2 hk
    rcases eq_or_lt_of_le hk with heq | hlt
    · subst heq
      rw [fibLoop]
      simp
    · rw [fibLoop]
      have hlen : ((List.range k).map Nat.fib).length = k := by simp
      rw [dif_pos (by rw [hlen]; exact hlt)]
      have e1 : ((List.range k).map Nat.fib).getD (((List.range k).map Nat.fib).length - 1) 0 =
          Nat.fib (k - 1) := by
        rw [hlen]
        exact fib_map_getD k (k - 1) (by omega)
      have e2 : ((List.range k).map Nat.fib).getD (((List.range k).map Nat.fib).length - 2) 0 =
          Nat.fib (k - 2) := by
        rw [hlen]
        exact fib_map_getD k (k - 2) (by omega)
      have efib : Nat.fib (k - 1) + Nat.fib (k - 2) = Nat.fib k := by
        have hk2 : k - 2 + 2 = k := by omega
        have := Nat.fib_add_two (n := k - 2)
        rw [hk2] at this
        rw [this]
        have h1 : k - 2 + 1 = k - 1 := by omega
        rw [h1]
        exact Nat.add_comm _ _
      have happ : (List.range k).map Nat.fib ++ [Nat.fib k] = (List.range (k + 1)).map Nat.fib := by
        rw [List.range_succ, List.map_append]
        rfl
      rw [e1, e2, efib, happ]
      exact ih n (k + 1) (by omega) (by omega) (by omega)

theorem fibSeries_eq_map (n : Int) (h1 : 1 ≤ n) :
    fibSeries n = (List.range n.toNat).map Nat.fib := by
  rcases eq_or_lt_of_le h1 with heq | hlt
  · rw [fibSeries, if_neg (by omega), if_pos (by omega)]
    rw [← heq]
    rfl
  · rw [fibSeries, if_neg (by omega), if_neg (by omega)]
    have hseed : ([0, 1] : List Nat) = (List.range 2).map Nat.fib := by rfl
    rw [hseed]
    exact fibLoop_map n.toNat n.toNat 2 (by omega) (by omega) (by omega)

/-- C3: for `1 ≤ n ≤ 1000`, `fibSeries n` has length exactly `n`, starts
with `0`, its second element (when `n ≥ 2`) is `1`, and every element
after the second is the sum of the two preceding elements. -/
theorem claim_C3 :
    ∀ n : Int, 1 ≤ n → n ≤ 1000 →
      (fibSeries n).length = n.toNat
      ∧ (fibSeries n)[0]? = some 0
      ∧ (2 ≤ n → (fibSeries n)[1]? = some 1)
      ∧ ∀ i : Nat, i + 2 < n.toNat →
          (fibSeries n)[i + 2]? =
            some ((fibSeries n).getD (i + 1) 0 + (fibSeries n).getD i 0) := by
  intro n h1 _
  rw [fibSeries_eq_map n h1]
  have hn1 : 1 ≤ n.toNat := by omega
  refine ⟨by simp, ?_, ?_, ?_⟩
  · rw [List.getElem?_map, List.getElem?_range (by omega)]
    rfl
  · intro h2
    rw [List.getElem?_map, List.getElem?_range (by omega)]
    rfl
  · intro i hi
    rw [List.getElem?_map, List.getElem?_range hi]
    rw [fib_map_getD _ _ (by omega), fib_map_getD _ _ (by omega)]
    simp only [Option.map_some']
    rw [Nat.fib_add_two]
    rw [Nat.add_comm]

theorem claim_C3_witness :
    (fibSeries 5).length = (5 : Int).toNat ∧ (fibSeries 5)[0]? = some 0 :=
  ⟨(claim_C3 5 (by decide) (by decide)).1, (claim_C3 5 (by decide) (by decide)).2.1⟩

/-! Primality: claims C4 and C6. -/

theorem trialLoop_iff (x : Nat) :
    ∀ (fuel r i : Nat), r + 1 - i ≤ fuel → i % 2 = 1 →
      (trialLoop fuel x r i = true ↔ ∀ j, i ≤ j → j ≤ r → j % 2 = 1 → ¬ j ∣ x) := by
  intro fuel
  induction fuel with
  | zero =>
    intro r i hd hodd
    simp only [trialLoop, true_iff]
    intro j hij hjr _ _
    omega
  | succ fuel ih =>
    intro r i hd hodd
    rw [trialLoop]
    by_cases hir : i ≤ r
    · rw [if_pos hir]
      by_cases hdvd : x % i = 0
      · rw [if_pos hdvd]
        have hidvd : i ∣ x := Nat.dvd_of_mod_eq_zero hdvd
        constructor
        · intro habs
          exact absurd habs (by simp)
        · intro hall
          exact absurd hidvd (hall i le_rfl hir hodd)
      · rw [if_neg hdvd]
        rw [ih r (i + 2) (by omega) (by omega)]
        constructor
        · intro h2 j hij hjr hjodd hjdvd
          rcases Nat.lt_or_ge j (i + 2) with hj | hj
          · have hji : j = i := by omega
            subst hji
            exact hdvd (Nat.dvd_iff_mod_eq_zero.mp hjdvd)
          · exact h2 j hj hjr hjodd hjdvd
        · intro h2 j hij hjr hjodd hjdvd
          exact h2 j (by omega) hjr hjodd hjdvd
    · rw [if_neg hir]
      constructor
      · intro _ j hij hjr _ _
        omega
      · intro _
        rfl

theorem isPrimeNum_iff_trial (x : Int) :
    isPrimeNum x = true ↔
      (1 < x ∧ (x = 2 ∨ x = 3 ∨ (x % 2 ≠ 0 ∧
        ∀ j : Nat, 3 ≤ j → j ≤ Nat.sqrt x.toNat → j % 2 = 1 → ¬ j ∣ x.toNat))) := by
  by_cases h1 : x ≤ 1
  · rw [isPrimeNum, if_pos h1]
    simp only [Bool.false_eq_true, false_iff]
    intro hc
    omega
  · by_cases h3 : x ≤ 3
    · rw [isPrimeNum, if_neg h1, if_pos h3]
      simp only [true_iff]
      refine ⟨by omega, ?_⟩
      have : x = 2 ∨ x = 3 := by omega
      tauto
    · by_cases heven : x % 2 = 0
      · rw [isPrimeNum, if_neg h1, if_neg h3, if_pos heven]
        simp only [Bool.false_eq_true, false_iff]
        intro hc
        rcases hc.2 with h | h | h
        · omega
        · omega
        · exact h.1 heven
      · rw [isPrimeNum, if_neg h1, if_neg h3, if_neg heven]
        rw [trialLoop_iff x.toNat (Nat.sqrt x.toNat + 1) (Nat.sqrt x.toNat) 3 (by omega) (by omega)]
        constructor
        · intro h
          exact ⟨by omega, Or.inr (Or.inr ⟨heven, fun j h3j => h j h3j⟩)⟩
        · intro h j h3j hjr hjodd
          rcases h.2 with hc | hc | hc
          · omega
          · omega
          · exact hc.2 j h3j hjr hjodd

theorem sqrt_eval (n k : Nat) (h1 : k * k ≤ n) (h2 : n < (k + 1) * (k + 1)) :
    Nat.sqrt n = k := by
  have ha : k ≤ Nat.sqrt n := Nat.le_sqrt.mpr h1
  have hb : Nat.sqrt n < k + 1 := Nat.sqrt_lt.mpr h2
  omega

theorem isPrimeNum_nine : isPrimeNum 9 = false := by
  rw [isPrimeNum, if_neg (by decide), if_neg (by decide), if_neg (by decide)]
  have h9 : (9 : Int).toNat = 9 := rfl
  rw [h9, sqrt_eval 9 3 (by decide) (by decide)]
  decide

/-- C4: `isPrimeNum` agrees exactly with the trial-division definition:
false for `x ≤ 1`; true for 2 and 3; false for even `x > 2` (equivalently,
`x` with `x mod 2 = 0` past the first two branches); otherwise true iff no
odd integer in `[3, floor (sqrt x)]` divides `x`; and the stated concrete
values at 1, 2 and 9. -/
theorem claim_C4 :
    (∀ x : Int, isPrimeNum x = true ↔
      (1 < x ∧ (x = 2 ∨ x = 3 ∨ (x % 2 ≠ 0 ∧
        ∀ j : Nat, 3 ≤ j → j ≤ Nat.sqrt x.toNat → j % 2 = 1 → ¬ j ∣ x.toNat))))
    ∧ isPrimeNum 1 = false ∧ isPrimeNum 2 = true ∧ isPrimeNum 9 = false :=
  ⟨isPrimeNum_iff_trial, by decide, by decide, isPrimeNum_nine⟩

theorem claim_C4_witness : isPrimeNum 9 = false ∧ isPrimeNum 2 = true :=
  ⟨claim_C4.2.2.2, claim_C4.2.2.1⟩

theorem oddTrial_iff_prime (n : Nat) (h5 : 5 ≤ n) (hodd : n % 2 = 1) :
    (∀ j, 3 ≤ j → j ≤ Nat.sqrt n → j % 2 = 1 → ¬ j ∣ n) ↔ Nat.Prime n := by
  constructor
  · intro h
    by_contra hnp
    have hp : n.minFac.Prime := Nat.minFac_prime (by omega)
    have hpd : n.minFac ∣ n := Nat.minFac_dvd n
    have hsq : n.minFac * n.minFac ≤ n := by
      have := Nat.minFac_sq_le_self (by omega) hnp
      nlinarith [this, sq_nonneg n.minFac]
    have hple : n.minFac ≤ Nat.sqrt n := Nat.le_sqrt.mpr hsq
    have hp2 : n.minFac ≠ 2 := by
      intro h2
      rw [h2] at hpd
      have : n % 2 = 0 := Nat.dvd_iff_mod_eq_zero.mp hpd
      omega
    have hp3 : 3 ≤ n.minFac := by
      have := hp.two_le
      omega
    have hpodd : n.minFac % 2 = 1 := by
      rcases Nat.mod_two_eq_zero_or_one n.minFac with h0 | h1
      · have h2d : 2 ∣ n.minFac := Nat.dvd_of_mod_eq_zero h0
        have : 2 ∣ n := h2d.trans hpd
        have : n % 2 = 0 := Nat.dvd_iff_mod_eq_zero.mp this
        omega
      · exact h1
    exact h n.minFac hp3 hple hpodd hpd
  · intro hp j h3 hsqrt hjodd hdvd
    rcases hp.eq_one_or_self_of_dvd j hdvd with h | h
    · omega
    · have : Nat.sqrt n < n := Nat.sqrt_lt_self (by omega)
      omega

theorem isPrimeNum_iff_prime (x : Int) :
    isPrimeNum x = true ↔ (1 < x ∧ Nat.Prime x.toNat) := by
  rw [isPrimeNum_iff_trial]
  by_cases h1 : 1 < x
  · simp only [h1, true_and]
    by_cases h2 : x = 2
    · subst h2
      simp [Nat.prime_two]
    · by_cases h3 : x = 3
      · subst h3
        simp [Nat.prime_three]
      · simp only [h2, h3, false_or]
        by_cases heven : x % 2 = 0
        · simp only [heven, ne_eq, not_true_eq_false, false_and, false_iff]
          intro hp
          have h2d : (2 : Nat) ∣ x.toNat := by
            have hx0 : (0 : Int) ≤ x := by omega
            have : (2 : Int) ∣ x := Int.dvd_of_emod_eq_zero heven
            rcases this with ⟨c, hc⟩
            refine ⟨c.toNat, ?_⟩
            omega
          rcases hp.eq_one_or_self_of_dvd 2 h2d with h | h
          · omega
          · omega
        · simp only [heven, ne_eq, not_false_eq_true, true_and]
          have hx5 : 5 ≤ x.toNat := by
            rcases Int.emod_two_eq_zero_or_one x with h | h
            · exact absurd h heven
            · omega
          have hodd : x.toNat % 2 = 1 := by omega
          exact oddTrial_iff_prime x.toNat hx5 hodd
  · simp [h1]

theorem isPrimeNum_eq_decide (x : Int) :
    isPrimeNum x = decide (1 < x ∧ Nat.Prime x.toNat) := by
  rcases h : isPrimeNum x with _ | _
  · have : ¬ (1 < x ∧ Nat.Prime x.toNat) := by
      rw [← isPrimeNum_iff_prime]
      simp [h]
    simp [this]
  · have : 1 < x ∧ Nat.Prime x.toNat := (isPrimeNum_iff_prime x).mp h
    simp [this]

theorem allInts_map (ns : List Int) :
    allInts (ns.map (fun n => JVal.jint n)) = some ns := by
  induction ns with
  | nil => rfl
  | cons n rest ih => simp [allInts, ih]

theorem bfhl_prime_eval (cfgAI : Bool) (ns : List Int) (hne : ns ≠ []) :
    bfhl true cfgAI (.jobj [("prime", .jarr (ns.map (fun n => .jint n)))]) =
      .ok (.jarr ((ns.filter (fun x => decide (1 < x ∧ Nat.Prime x.toNat))).map
        (fun n => .jint n))) := by
  have hfilter : ns.filter (fun x => isPrimeNum x) =
      ns.filter (fun x => decide (1 < x ∧ Nat.Prime x.toNat)) := by
    apply List.filter_congr
    intro x _
    exact isPrimeNum_eq_decide x
  have hempty : (ns.map (fun n => JVal.jint n)).isEmpty = false := by
    rcases ns with _ | ⟨n, rest⟩
    · exact absurd rfl hne
    · rfl
  show bfhlDispatch cfgAI "prime" (.jarr (ns.map (fun n => .jint n))) = _
  rw [bfhlDispatch]
  rw [if_neg (by decide), if_pos rfl]
  simp only [hempty, Bool.false_eq_true, if_false, allInts_map, hfilter]

/-- C6: for a body with the single key `prime` holding a non-empty integer
array, the response is successful and its data is the order- and
multiplicity-preserving subsequence of exactly the prime elements; in
particular `[2, 3, 4, 5, 1]` answers `[2, 3, 5]`. -/
theorem claim_C6 :
    ∀ (cfgAI : Bool) (ns : List Int), ns ≠ [] →
      bfhl true cfgAI (.jobj [("prime", .jarr (ns.map (fun n => .jint n)))]) =
        .ok (.jarr ((ns.filter (fun x => decide (1 < x ∧ Nat.Prime x.toNat))).map
          (fun n => .jint n)))
      ∧ (ns.filter (fun x => decide (1 < x ∧ Nat.Prime x.toNat))).Sublist ns
      ∧ bfhl true cfgAI (.jobj [("prime", .jarr ([2, 3, 4, 5, 1].map (fun n : Int => .jint n)))]) =
          .ok (.jarr ([2, 3, 5].map (fun n : Int => .jint n))) := by
  intro cfgAI ns hne
  refine ⟨bfhl_prime_eval cfgAI ns hne, List.filter_sublist ns, ?_⟩
  rw [bfhl_prime_eval cfgAI [2, 3, 4, 5, 1] (by simp)]
  have hf : ([2, 3, 4, 5, 1] : List Int).filter
      (fun x => decide (1 < x ∧ Nat.Prime x.toNat)) = [2, 3, 5] := by
    have p2 : Nat.Prime 2 := Nat.prime_two
    have p3 : Nat.Prime 3 := Nat.prime_three
    have p5 : Nat.Prime 5 := by norm_num
    have np4 : ¬ Nat.Prime 4 := by norm_num
    simp [List.filter, p2, p3, p5, np4]
  rw [hf]

theorem claim_C6_witness :
    bfhl true true (.jobj [("prime", .jarr ([2, 3, 4, 5, 1].map (fun n : Int => .jint n)))]) =
      .ok (.jarr ([2, 3, 5].map (fun n : Int => .jint n))) :=
  (claim_C6 true [2, 3, 4, 5, 1] (by simp)).2.2

/-! Array gcd/lcm: claim C5. -/

theorem gcdRec_eq_gcd (a b : Nat) : gcdRec a b = Nat.gcd a b := by
  induction b using Nat.strong_induction_on generalizing a with
  | _ b ih =>
    rw [gcdRec]
    by_cases hb : b = 0
    · rw [dif_pos hb, hb, Nat.gcd_zero_right]
    · rw [dif_neg hb]
      rw [ih (a % b) (Nat.mod_lt _ (Nat.pos_of_ne_zero hb)) b]
      rw [Nat.gcd_comm b, ← Nat.gcd_rec, Nat.gcd_comm]

theorem gcd_eq_natGcd (a b : Int) :
    Bfhl.gcd a b = Int.ofNat (Nat.gcd a.natAbs b.natAbs) := by
  rw [Bfhl.gcd, gcdRec_eq_gcd]

theorem foldl_gcd_cast (xs : List Int) (n : Nat) :
    xs.foldl (fun acc v => Bfhl.gcd acc v) (Int.ofNat n) =
      Int.ofNat (xs.foldl (fun acc v => Nat.gcd acc v.natAbs) n) := by
  induction xs generalizing n with
  | nil => rfl
  | cons v vs ih =>
    simp only [List.foldl_cons]
    rw [gcd_eq_natGcd]
    have : (Int.ofNat n).natAbs = n := rfl
    rw [this]
    exact ih (Nat.gcd n v.natAbs)

theorem gcdArray_eq_natFold (x v : Int) (vs : List Int) :
    gcdArray (x :: v :: vs) =
      Int.ofNat ((x :: v :: vs).foldl (fun acc w => Nat.gcd acc w.natAbs) 0) := by
  show (v :: vs).foldl (fun acc w => Bfhl.gcd acc w) x = _
  simp only [List.foldl_cons]
  rw [gcd_eq_natGcd]
  have hx : Bfhl.gcd x v = Int.ofNat (Nat.gcd x.natAbs v.natAbs) := gcd_eq_natGcd x v
  rw [foldl_gcd_cast vs (Nat.gcd x.natAbs v.natAbs)]
  congr 2
  rw [Nat.gcd_zero_left]

theorem foldl_gcd_perm (n : Nat) {l l' : List Int} (h : l.Perm l') :
    l.foldl (fun acc w => Nat.gcd acc w.natAbs) n =
      l'.foldl (fun acc w => Nat.gcd acc w.natAbs) n := by
  induction h generalizing n with
  | nil => rfl
  | cons x _ ih =>
    simp only [List.foldl_cons]
    exact ih _
  | swap x y l =>
    simp only [List.foldl_cons]
    rw [Nat.gcd_assoc, Nat.gcd_comm y.natAbs, ← Nat.gcd_assoc]
  | trans _ _ ih1 ih2 => exact (ih1 n).trans (ih2 n)

theorem foldl_gcd_dvd (l : List Int) (n : Nat) :
    (l.foldl (fun acc w => Nat.gcd acc w.natAbs) n) ∣ n ∧
      ∀ x ∈ l, (l.foldl (fun acc w => Nat.gcd acc w.natAbs) n) ∣ x.natAbs := by
  induction l generalizing n with
  | nil => exact ⟨dvd_rfl, by simp⟩
  | cons v vs ih =>
    simp only [List.foldl_cons]
    obtain ⟨h1, h2⟩ := ih (Nat.gcd n v.natAbs)
    refine ⟨h1.trans (Nat.gcd_dvd_left _ _), ?_⟩
    intro x hx
    rcases List.mem_cons.mp hx with hx | hx
    · subst hx
      exact h1.trans (Nat.gcd_dvd_right _ _)
    · exact h2 x hx

theorem lcm2_eq_natLcm (a b : Int) :
    lcm2 a b = Int.ofNat (Nat.lcm a.natAbs b.natAbs) := by
  rw [lcm2]
  by_cases h0 : a = 0 ∨ b = 0
  · rw [if_pos h0]
    rcases h0 with h | h <;> subst h <;> simp [Nat.lcm]
  · rw [if_neg h0]
    push_neg at h0
    obtain ⟨ha, _⟩ := h0
    obtain ⟨g, hg⟩ : ∃ g, Nat.gcd a.natAbs b.natAbs = g := ⟨_, rfl⟩
    have hga : g ∣ a.natAbs := hg ▸ Nat.gcd_dvd_left a.natAbs b.natAbs
    have hgz : g ≠ 0 := by
      intro hz
      subst hz
      exact ha (Int.natAbs_eq_zero.mp (Nat.eq_zero_of_gcd_eq_zero_left hg))
    have hgcd : Bfhl.gcd a b = Int.ofNat g := by rw [gcd_eq_natGcd, hg]
    have hgdvd : (Int.ofNat g) ∣ a :=
      (Int.natCast_dvd_natCast.mpr hga).trans (Int.natAbs_dvd.mpr dvd_rfl)
    obtain ⟨c, hc⟩ := hgdvd
    have hg0 : (Int.ofNat g : Int) ≠ 0 := by
      intro hz
      exact hgz (Int.ofNat_eq_zero.mp hz)
    have hdiv : a / Bfhl.gcd a b = c := by
      rw [hgcd, hc]
      exact Int.mul_ediv_cancel_left c hg0
    have hca : c.natAbs * g = a.natAbs := by
      rw [hc, Int.natAbs_mul]
      simp [Nat.mul_comm]
    rw [hdiv, Int.natAbs_mul]
    congr 1
    rw [Nat.lcm, hg, ← hca]
    rw [Nat.mul_comm c.natAbs g, Nat.mul_assoc,
      Nat.mul_div_cancel_left _ (Nat.pos_of_ne_zero hgz)]

theorem foldl_lcm_cast (xs : List Int) (n : Nat) :
    xs.foldl (fun acc v => lcm2 acc v) (Int.ofNat n) =
      Int.ofNat (xs.foldl (fun acc v => Nat.lcm acc v.natAbs) n) := by
  induction xs generalizing n with
  | nil => rfl
  | cons v vs ih =>
    simp only [List.foldl_cons]
    rw [lcm2_eq_natLcm]
    have : (Int.ofNat n).natAbs = n := rfl
    rw [this]
    exact ih (Nat.lcm n v.natAbs)

theorem lcmArray_eq_natFold (x v : Int) (vs : List Int) :
    lcmArray (x :: v :: vs) =
      Int.ofNat ((v :: vs).foldl (fun acc w => Nat.lcm acc w.natAbs) x.natAbs) := by
  show (v :: vs).foldl (fun acc w => lcm2 acc w) x = _
  simp only [List.foldl_cons]
  rw [lcm2_eq_natLcm]
  exact foldl_lcm_cast vs (Nat.lcm x.natAbs v.natAbs)

theorem foldl_lcm_dvd (l : List Int) (n : Nat) :
    n ∣ (l.foldl (fun acc w => Nat.lcm acc w.natAbs) n) ∧
      ∀ x ∈ l, x.natAbs ∣ (l.foldl (fun acc w => Nat.lcm acc w.natAbs) n) := by
  induction l generalizing n with
  | nil => exact ⟨dvd_rfl, by simp⟩
  | cons v vs ih =>
    simp only [List.foldl_cons]
    obtain ⟨h1, h2⟩ := ih (Nat.lcm n v.natAbs)
    refine ⟨(Nat.dvd_lcm_left _ _).trans h1, ?_⟩
    intro x hx
    rcases List.mem_cons.mp hx with hx | hx
    · subst hx
      exact (Nat.dvd_lcm_right _ _).trans h1
    · exact h2 x hx

/-- C5: `gcdArray` yields the same value on every permutation of a
non-empty input list and its result divides every element; `lcmArray`
yields an integer multiple of every element. -/
theorem claim_C5 :
    ∀ (l l' : List Int), l ≠ [] → l.Perm l' →
      gcdArray l = gcdArray l'
      ∧ (∀ x ∈ l, gcdArray l ∣ x)
      ∧ (∀ x ∈ l, x ∣ lcmArray l) := by
  intro l l' hne hperm
  rcases l with _ | ⟨x, l0⟩
  · exact absurd rfl hne
  rcases l0 with _ | ⟨v, vs⟩
  · have hl' : l' = [x] := List.perm_singleton.mp hperm.symm
    subst hl'
    refine ⟨rfl, ?_, ?_⟩
    · intro y hy
      have hyx : y = x := by simpa using hy
      subst hyx
      exact dvd_rfl
    · intro y hy
      have hyx : y = x := by simpa using hy
      subst hyx
      exact dvd_rfl
  · rcases l' with _ | ⟨y, l1⟩
    · exact absurd hperm.length_eq (by simp)
    rcases l1 with _ | ⟨w, ws⟩
    · exact absurd hperm.length_eq (by simp)
    refine ⟨?_, ?_, ?_⟩
    · rw [gcdArray_eq_natFold, gcdArray_eq_natFold]
      exact congrArg Int.ofNat (foldl_gcd_perm 0 hperm)
    · intro z hz
      rw [gcdArray_eq_natFold]
      have hd := (foldl_gcd_dvd (x :: v :: vs) 0).2 z hz
      exact (Int.natCast_dvd_natCast.mpr hd).trans (Int.natAbs_dvd.mpr dvd_rfl)
    · intro z hz
      rw [lcmArray_eq_natFold]
      have hd : z.natAbs ∣ (v :: vs).foldl (fun acc w => Nat.lcm acc w.natAbs) x.natAbs := by
        rcases List.mem_cons.mp hz with hz1 | hz2
        · subst hz1
          exact (foldl_lcm_dvd (v :: vs) z.natAbs).1
        · exact (foldl_lcm_dvd (v :: vs) x.natAbs).2 z hz2
      exact Int.natAbs_dvd.mp (Int.natCast_dvd_natCast.mpr hd)

theorem claim_C5_witness :
    gcdArray [6, -4] = gcdArray [-4, 6]
    ∧ (∀ x ∈ ([6, -4] : List Int), gcdArray [6, -4] ∣ x)
    ∧ (∀ x ∈ ([6, -4] : List Int), x ∣ lcmArray [6, -4]) :=
  claim_C5 [6, -4] [-4, 6] (by simp) (List.Perm.swap (-4) 6 [])

/-! Dispatcher validation: claim C7. -/

/-- The per-kernel input-shape checks of POST /bfhl, as enforced by the
code before any kernel or proxy is invoked. -/
def shapeOK (k : String) (v : JVal) : Prop :=
  (k = "fibonacci" ∧ ∃ n : Int, v = .jint n ∧ 1 ≤ n ∧ n ≤ 1000)
  ∨ (k = "prime" ∧ ∃ es ns, v = .jarr es ∧ es ≠ [] ∧ allInts es = some ns)
  ∨ (k = "hcf" ∧ ∃ es ns, v = .jarr es ∧ es ≠ [] ∧ allInts es = some ns)
  ∨ (k = "lcm" ∧ ∃ es ns, v = .jarr es ∧ es ≠ [] ∧ allInts es = some ns)
  ∨ (k = "AI" ∧ ∃ s : String, v = .jstr s ∧ s.trim ≠ "")

/-- A request outcome that is not an error envelope: a success response or
an invocation of the AI proxy. -/
def accepted (r : BfhlResult) : Prop :=
  (∃ d, r = .ok d) ∨ (∃ q, r = .aiQuery q)

theorem allInts_ne_nil {es : List JVal} {ns : List Int} (h : allInts es = some ns)
    (hne : es ≠ []) : ns ≠ [] := by
  rcases es with _ | ⟨e, es0⟩
  · exact absurd rfl hne
  · rcases e with _ | _ | n | _ | _ | _ | _ <;> simp [allInts] at h
    obtain ⟨ms, _, hcons⟩ := h
    intro hn
    rw [← hcons] at hn
    exact List.cons_ne_nil _ _ hn

theorem bfhl_keys_single (cfgAI : Bool) (body : JVal) (k : String) (v : JVal)
    (h : jsKeys body = some [(k, v)]) :
    bfhl true cfgAI body = (if allowedKeys.contains k then bfhlDispatch cfgAI k v
      else .err 400 "Unsupported key provided") := by
  show (match jsKeys body with
    | none => BfhlResult.err 400 "Invalid JSON body"
    | some keys => match keys with
      | [(k, v)] => if allowedKeys.contains k then bfhlDispatch cfgAI k v
          else BfhlResult.err 400 "Unsupported key provided"
      | _ => BfhlResult.err 400 "Request must contain exactly one top-level key") = _
  rw [h]

theorem not_accepted_err (s : Nat) (msg : String) : ¬ accepted (.err s msg) := by
  intro h
  rcases h with ⟨d, hd⟩ | ⟨q, hq⟩
  · exact BfhlResult.noConfusion hd
  · exact BfhlResult.noConfusion hq

theorem contains_mem_iff {a : String} {l : List String} : l.contains a = true ↔ a ∈ l := by
  simp

theorem isEmpty_false_ne_nil {es : List JVal} (h : es.isEmpty = false) : es ≠ [] := by
  intro hnil
  rw [hnil] at h
  exact Bool.noConfusion h

/-- C7: the dispatcher accepts a body only when it is a JSON object with
exactly one top-level key in the set fibonacci/prime/lcm/hcf/AI whose value
passes that kernel's shape check; a body whose key count differs from one
answers 400 "Request must contain exactly one top-level key", an unknown
key answers 400 "Unsupported key provided", a known key with a bad shape
answers 400 with a descriptive message, and in particular the two-key body
and the empty hcf array answer the stated messages. -/
theorem claim_C7 :
    ∀ cfgAI : Bool,
      (∀ fs : List (String × JVal), fs.length ≠ 1 →
          bfhl true cfgAI (.jobj fs) = .err 400 "Request must contain exactly one top-level key")
      ∧ (∀ (k : String) (v : JVal), k ∉ allowedKeys →
          bfhl true cfgAI (.jobj [(k, v)]) = .err 400 "Unsupported key provided")
      ∧ (∀ body : JVal, accepted (bfhl true cfgAI body) →
          ∃ k v, jsKeys body = some [(k, v)] ∧ k ∈ allowedKeys ∧ shapeOK k v)
      ∧ (∀ (k : String) (v : JVal), k ∈ allowedKeys → ¬ shapeOK k v →
          ∃ msg, bfhl true cfgAI (.jobj [(k, v)]) = .err 400 msg)
      ∧ bfhl true cfgAI (.jobj [("prime", .jarr [.jint 2]), ("hcf", .jarr [.jint 4])]) =
          .err 400 "Request must contain exactly one top-level key"
      ∧ bfhl true cfgAI (.jobj [("hcf", .jarr [])]) = .err 400 "hcf must be a non-empty array" := by
  intro cfgAI
  have hone : ∀ fs : List (String × JVal), fs.length ≠ 1 →
      bfhl true cfgAI (.jobj fs) = .err 400 "Request must contain exactly one top-level key" := by
    intro fs hlen
    rcases fs with _ | ⟨p, fs0⟩
    · rfl
    rcases fs0 with _ | ⟨q, fs1⟩
    · simp at hlen
    · rfl
  have hunsup : ∀ (k : String) (v : JVal), k ∉ allowedKeys →
      bfhl true cfgAI (.jobj [(k, v)]) = .err 400 "Unsupported key provided" := by
    intro k v hk
    have hc : allowedKeys.contains k = false := by
      rcases hcon : allowedKeys.contains k with _ | _
      · rfl
      · exact absurd (contains_mem_iff.mp hcon) hk
    show (if allowedKeys.contains k then bfhlDispatch cfgAI k v
      else .err 400 "Unsupported key provided") = _
    rw [hc]
    rfl
  have hdisp : ∀ (k : String) (v : JVal), accepted (bfhlDispatch cfgAI k v) →
      k ∈ allowedKeys → shapeOK k v := by
    intro k v hacc hk
    have hmem : k = "fibonacci" ∨ k = "prime" ∨ k = "lcm" ∨ k = "hcf" ∨ k = "AI" := by
      simpa [allowedKeys] using hk
    rcases hmem with hke | hke | hke | hke | hke <;> subst hke
    · rcases v with _ | b | n | _ | s | es | fs
      · exact absurd hacc (not_accepted_err _ _)
      · exact absurd hacc (not_accepted_err _ _)
      · have hacc2 : accepted (if n ≤ 0 ∨ n > 1000
            then BfhlResult.err 400 "fibonacci must be an integer in range 1..1000"
            else BfhlResult.ok
              (.jarr ((fibSeries n).map (fun m => .jint (Int.ofNat m))))) := hacc
        by_cases hrange : n ≤ 0 ∨ n > 1000
        · rw [if_pos hrange] at hacc2
          exact absurd hacc2 (not_accepted_err _ _)
        · push_neg at hrange
          exact Or.inl ⟨rfl, n, rfl, by omega, by omega⟩
      · exact absurd hacc (not_accepted_err _ _)
      · exact absurd hacc (not_accepted_err _ _)
      · exact absurd hacc (not_accepted_err _ _)
      · exact absurd hacc (not_accepted_err _ _)
    · rcases v with _ | b | n | _ | s | es | fs
      · exact absurd hacc (not_accepted_err _ _)
      · exact absurd hacc (not_accepted_err _ _)
      · exact absurd hacc (not_accepted_err _ _)
      · exact absurd hacc (not_accepted_err _ _)
      · exact absurd hacc (not_accepted_err _ _)
      · have hacc2 : accepted (if es.isEmpty
            then BfhlResult.err 400 "prime must be a non-empty array"
            else match allInts es with
              | none => BfhlResult.err 400 "prime array must contain integers"
              | some ns => BfhlResult.ok
                  (.jarr ((ns.filter (fun x => isPrimeNum x)).map (fun n => .jint n)))) := hacc
        rcases hemp : es.isEmpty with _ | _
        · rw [hemp] at hacc2
          simp only [Bool.false_eq_true, if_false] at hacc2
          rcases hints : allInts es with _ | ns
          · rw [hints] at hacc2
            exact absurd hacc2 (not_accepted_err _ _)
          · exact Or.inr (Or.inl ⟨rfl, es, ns, rfl, isEmpty_false_ne_nil hemp, hints⟩)
        · rw [hemp] at hacc2
          simp only [if_true] at hacc2
          exact absurd hacc2 (not_accepted_err _ _)
      · exact absurd hacc (not_accepted_err _ _)
    · rcases v with _ | b | n | _ | s | es | fs
      · exact absurd hacc (not_accepted_err _ _)
      · exact absurd hacc (not_accepted_err _ _)
      · exact absurd hacc (not_accepted_err _ _)
      · exact absurd hacc (not_accepted_err _ _)
      · exact absurd hacc (not_accepted_err _ _)
      · have hacc2 : accepted (if es.isEmpty
            then BfhlResult.err 400 "lcm must be a non-empty array"
            else match allInts es with
              | none => BfhlResult.err 400 "lcm array must contain integers"
              | some ns => BfhlResult.ok (.jint (lcmArray ns))) := hacc
        rcases hemp : es.isEmpty with _ | _
        · rw [hemp] at hacc2
          simp only [Bool.false_eq_true, if_false] at hacc2
          rcases hints : allInts es with _ | ns
          · rw [hints] at hacc2
            exact absurd hacc2 (not_accepted_err _ _)
          · exact Or.inr (Or.inr (Or.inr (Or.inl
              ⟨rfl, es, ns, rfl, isEmpty_false_ne_nil hemp, hints⟩)))
        · rw [hemp] at hacc2
          simp only [if_true] at hacc2
          exact absurd hacc2 (not_accepted_err _ _)
      · exact absurd hacc (not_accepted_err _ _)
    · rcases v with _ | b | n | _ | s | es | fs
      · exact absurd hacc (not_accepted_err _ _)
      · exact absurd hacc (not_accepted_err _ _)
      · exact absurd hacc (not_accepted_err _ _)
      · exact absurd hacc (not_accepted_err _ _)
      · exact absurd hacc (not_accepted_err _ _)
      · have hacc2 : accepted (if es.isEmpty
            then BfhlResult.err 400 "hcf must be a non-empty array"
            else match allInts es with
              | none => BfhlResult.err 400 "hcf array must contain integers"
              | some ns => BfhlResult.ok (.jint (gcdArray ns))) := hacc
        rcases hemp : es.isEmpty with _ | _
        · rw [hemp] at hacc2
          simp only [Bool.false_eq_true, if_false] at hacc2
          rcases hints : allInts es with _ | ns
          · rw [hints] at hacc2
            exact absurd hacc2 (not_accepted_err _ _)
          · exact Or.inr (Or.inr (Or.inl ⟨rfl, es, ns, rfl, isEmpty_false_ne_nil hemp, hints⟩))
        · rw [hemp] at hacc2
          simp only [if_true] at hacc2
          exact absurd hacc2 (not_accepted_err _ _)
      · exact absurd hacc (not_accepted_err _ _)
    · rcases v with _ | b | n | _ | s | es | fs
      · exact absurd hacc (not_accepted_err _ _)
      · exact absurd hacc (not_accepted_err _ _)
      · exact absurd hacc (not_accepted_err _ _)
      · exact absurd hacc (not_accepted_err _ _)
      · have hacc2 : accepted (if s.trim = ""
            then BfhlResult.err 400 "AI must be a non-empty string"
            else if cfgAI then BfhlResult.aiQuery ("Answer Question: " ++ s)
              else BfhlResult.err 503 "AI service not configured") := hacc
        by_cases htrim : s.trim = ""
        · rw [if_pos htrim] at hacc2
          exact absurd hacc2 (not_accepted_err _ _)
        · exact Or.inr (Or.inr (Or.inr (Or.inr ⟨rfl, s, rfl, htrim⟩)))
      · exact absurd hacc (not_accepted_err _ _)
      · exact absurd hacc (not_accepted_err _ _)
  refine ⟨hone, hunsup, ?_, ?_, hone _ (by simp), rfl⟩
  · intro body hacc
    rcases body with _ | b | n | _ | s | es | fs
    · exact absurd hacc (not_accepted_err _ _)
    · exact absurd hacc (not_accepted_err _ _)
    · exact absurd hacc (not_accepted_err _ _)
    · exact absurd hacc (not_accepted_err _ _)
    · exact absurd hacc (not_accepted_err _ _)
    · rcases es with _ | ⟨e, es0⟩
      · exact absurd hacc (not_accepted_err _ _)
      rcases es0 with _ | ⟨e2, es1⟩
      · have hrw : bfhl true cfgAI (.jarr [e]) = .err 400 "Unsupported key provided" := by
          rw [bfhl_keys_single cfgAI (.jarr [e]) (toString (0 : Nat)) e rfl]
          rfl
        rw [hrw] at hacc
        exact absurd hacc (not_accepted_err _ _)
      · have hrw : bfhl true cfgAI (.jarr (e :: e2 :: es1)) =
            .err 400 "Request must contain exactly one top-level key" := rfl
        rw [hrw] at hacc
        exact absurd hacc (not_accepted_err _ _)
    · rcases fs with _ | ⟨⟨k, v⟩, fs0⟩
      · exact absurd hacc (not_accepted_err _ _)
      rcases fs0 with _ | ⟨q, fs1⟩
      · rcases hcon : allowedKeys.contains k with _ | _
        · rw [hunsup k v (fun hmem => by
            rw [contains_mem_iff.mpr hmem] at hcon
            exact Bool.noConfusion hcon)] at hacc
          exact absurd hacc (not_accepted_err _ _)
        · have hrw : bfhl true cfgAI (.jobj [(k, v)]) = bfhlDispatch cfgAI k v := by
            show (if allowedKeys.contains k then bfhlDispatch cfgAI k v
              else .err 400 "Unsupported key provided") = _
            rw [hcon]
            rfl
          rw [hrw] at hacc
          exact ⟨k, v, rfl, contains_mem_iff.mp hcon, hdisp k v hacc (contains_mem_iff.mp hcon)⟩
      · rw [hone (⟨k, v⟩ :: q :: fs1) (by simp)] at hacc
        exact absurd hacc (not_accepted_err _ _)
  · intro k v hk hshape
    have hmem : k = "fibonacci" ∨ k = "prime" ∨ k = "lcm" ∨ k = "hcf" ∨ k = "AI" := by
      simpa [allowedKeys] using hk
    have hrw : bfhl true cfgAI (.jobj [(k, v)]) = bfhlDispatch cfgAI k v := by
      show (if allowedKeys.contains k then bfhlDispatch cfgAI k v
        else .err 400 "Unsupported key provided") = _
      rw [contains_mem_iff.mpr hk]
      rfl
    rw [hrw]
    rcases hmem with hke | hke | hke | hke | hke <;> subst hke
    · rcases v with _ | b | n | _ | s | es | fs
      · exact ⟨_, rfl⟩
      · exact ⟨_, rfl⟩
      · have hb : bfhlDispatch cfgAI "fibonacci" (.jint n) = (if n ≤ 0 ∨ n > 1000
            then BfhlResult.err 400 "fibonacci must be an integer in range 1..1000"
            else BfhlResult.ok
              (.jarr ((fibSeries n).map (fun m => .jint (Int.ofNat m))))) := rfl
        rw [hb]
        by_cases hrange : n ≤ 0 ∨ n > 1000
        · rw [if_pos hrange]
          exact ⟨_, rfl⟩
        · push_neg at hrange
          exact absurd (Or.inl ⟨rfl, n, rfl, by omega, by omega⟩) hshape
      · exact ⟨_, rfl⟩
      · exact ⟨_, rfl⟩
      · exact ⟨_, rfl⟩
      · exact ⟨_, rfl⟩
    · rcases v with _ | b | n | _ | s | es | fs
      · exact ⟨_, rfl⟩
      · exact ⟨_, rfl⟩
      · exact ⟨_, rfl⟩
      · exact ⟨_, rfl⟩
      · exact ⟨_, rfl⟩
      · have hb : bfhlDispatch cfgAI "prime" (.jarr es) = (if es.isEmpty
            then BfhlResult.err 400 "prime must be a non-empty array"
            else match allInts es with
              | none => BfhlResult.err 400 "prime array must contain integers"
              | some ns => BfhlResult.ok
                  (.jarr ((ns.filter (fun x => isPrimeNum x)).map (fun n => .jint n)))) := rfl
        rw [hb]
        rcases hemp : es.isEmpty with _ | _
        · simp only [Bool.false_eq_true, if_false]
          rcases hints : allInts es with _ | ns
          · exact ⟨_, rfl⟩
          · exact absurd (Or.inr (Or.inl
              ⟨rfl, es, ns, rfl, isEmpty_false_ne_nil hemp, hints⟩)) hshape
        · simp only [if_true]
          exact ⟨_, rfl⟩
      · exact ⟨_, rfl⟩
    · rcases v with _ | b | n | _ | s | es | fs
      · exact ⟨_, rfl⟩
      · exact ⟨_, rfl⟩
      · exact ⟨_, rfl⟩
      · exact ⟨_, rfl⟩
      · exact ⟨_, rfl⟩
      · have hb : bfhlDispatch cfgAI "lcm" (.jarr es) = (if es.isEmpty
            then BfhlResult.err 400 "lcm must be a non-empty array"
            else match allInts es with
              | none => BfhlResult.err 400 "lcm array must contain integers"
              | some ns => BfhlResult.ok (.jint (lcmArray ns))) := rfl
        rw [hb]
        rcases hemp : es.isEmpty with _ | _
        · simp only [Bool.false_eq_true, if_false]
          rcases hints : allInts es with _ | ns
          · exact ⟨_, rfl⟩
          · exact absurd (Or.inr (Or.inr (Or.inr (Or.inl
              ⟨rfl, es, ns, rfl, isEmpty_false_ne_nil hemp, hints⟩)))) hshape
        · simp only [if_true]
          exact ⟨_, rfl⟩
      · exact ⟨_, rfl⟩
    · rcases v with _ | b | n | _ | s | es | fs
      · exact ⟨_, rfl⟩
      · exact ⟨_, rfl⟩
      · exact ⟨_, rfl⟩
      · exact ⟨_, rfl⟩
      · exact ⟨_, rfl⟩
      · have hb : bfhlDispatch cfgAI "hcf" (.jarr es) = (if es.isEmpty
            then BfhlResult.err 400 "hcf must be a non-empty array"
            else match allInts es with
              | none => BfhlResult.err 400 "hcf array must contain integers"
              | some ns => BfhlResult.ok (.jint (gcdArray ns))) := rfl
        rw [hb]
        rcases hemp : es.isEmpty with _ | _
        · simp only [Bool.false_eq_true, if_false]
          rcases hints : allInts es with _ | ns
          · exact ⟨_, rfl⟩
          · exact absurd (Or.inr (Or.inr (Or.inl
              ⟨rfl, es, ns, rfl, isEmpty_false_ne_nil hemp, hints⟩))) hshape
        · simp only [if_true]
          exact ⟨_, rfl⟩
      · exact ⟨_, rfl⟩
    · rcases v with _ | b | n | _ | s | es | fs
      · exact ⟨_, rfl⟩
      · exact ⟨_, rfl⟩
      · exact ⟨_, rfl⟩
      · exact ⟨_, rfl⟩
      · have hb : bfhlDispatch cfgAI "AI" (.jstr s) = (if s.trim = ""
            then BfhlResult.err 400 "AI must be a non-empty string"
            else if cfgAI then BfhlResult.aiQuery ("Answer Question: " ++ s)
              else BfhlResult.err 503 "AI service not configured") := rfl
        rw [hb]
        by_cases htrim : s.trim = ""
        · rw [if_pos htrim]
          exact ⟨_, rfl⟩
        · exact absurd (Or.inr (Or.inr (Or.inr (Or.inr ⟨rfl, s, rfl, htrim⟩)))) hshape
      · exact ⟨_, rfl⟩
      · exact ⟨_, rfl⟩

theorem claim_C7_witness :
    bfhl true true (.jobj []) = .err 400 "Request must contain exactly one top-level key" :=
  (claim_C7 true).1 [] (by simp)

/-! Sanitizer JSON extraction: claim C2. -/

/-- C2: after stripping fenced code blocks, the sanitizer takes the span
from the first opening brace to the last closing brace (the greedy regex
match) and parses it as JSON; on success a string value replaces the whole text, an object with
a string `data` field contributes that field, and any other value is
replaced by its pretty-printed re-serialization; on parse failure the
matched span itself becomes the text; the remaining cleanup steps are then
applied. In particular the input consisting of a JSON object with string
field `data` equal to "42" sanitizes to exactly "42". -/
theorem claim_C2 :
    (∀ raw : String, raw ≠ "" →
      cleanAIContent raw = String.mk (postJson (cleanStage2 (stripFences raw.data)))
      ∧ (braceSpan (stripFences raw.data) = none →
          cleanStage2 (stripFences raw.data) = stripFences raw.data)
      ∧ ∀ span, braceSpan (stripFences raw.data) = some span →
          ((jsonParse span = none → cleanStage2 (stripFences raw.data) = span)
          ∧ ∀ v, jsonParse span = some v → cleanStage2 (stripFences raw.data) = extractChoice v))
    ∧ (∀ s, extractChoice (.jstr s) = s)
    ∧ (∀ fs d, lookupField fs "data" = some (.jstr d) → extractChoice (.jobj fs) = d)
    ∧ (∀ fs, (∀ d, lookupField fs "data" ≠ some (.jstr d)) →
        extractChoice (.jobj fs) = jsonStringify (.jobj fs))
    ∧ (∀ v, (∀ s, v ≠ JsonVal.jstr s) → (∀ fs, v ≠ JsonVal.jobj fs) →
        extractChoice v = jsonStringify v)
    ∧ cleanAIContent "\x7b\"data\":\"42\"\x7d" = "42" := by
  refine ⟨?_, ?_, ?_, ?_, ?_, ?_⟩
  · intro raw hne
    refine ⟨?_, ?_, ?_⟩
    · rw [cleanAIContent, if_neg hne]
    · intro h
      rw [cleanStage2, h]
    · intro span hs
      constructor
      · intro hp
        rw [cleanStage2, hs]
        show (match jsonParse span with
          | some v => extractChoice v
          | none => span) = span
        rw [hp]
      · intro v hv
        rw [cleanStage2, hs]
        show (match jsonParse span with
          | some v => extractChoice v
          | none => span) = extractChoice v
        rw [hv]
  · intro s
    rfl
  · intro fs d h
    rw [extractChoice, h]
  · intro fs hno
    rw [extractChoice]
    rcases hl : lookupField fs "data" with _ | val
    · rfl
    · rcases val with _ | b | ⟨m, e⟩ | s | l | l2
      · rfl
      · rfl
      · rfl
      · exact absurd hl (hno s)
      · rfl
      · rfl
  · intro v hs hobj
    rcases v with _ | b | ⟨m, e⟩ | s | l | l2
    · rfl
    · rfl
    · rfl
    · exact absurd rfl (hs s)
    · rfl
    · exact absurd rfl (hobj l2)
  · rfl

theorem claim_C2_witness :
    cleanAIContent "abc" = String.mk (postJson (cleanStage2 (stripFences "abc".data))) :=
  (claim_C2.1 "abc" (by decide)).1

end Bfhl
